import Mathlib

/-!
Shallow embedding of the carisma-simulator core (btrantruong/carisma-simulator).

The embedding covers:
* the feed-merge algorithm of `src/libs/simsom/agent_process.py` (`run_agent`),
* the moderation state machine of `src/libs/simsom/policy_filter_process.py`
  (`suspension`, `run_policy_filter`),
* the dispatching stages of `src/libs/simsom/agent_pool_manager_process.py`
  (`run_agent_pool_manager`) and
  `src/libs/simsom/FilCompliant/simsom/handler_pool_manager_proc.py`
  (`run_handler_pool_manager`),
* the reboot pipeline of `src/libs/simsom/reboot/simsom_core.py`
  (`Agent.make_actions`, the handler cycle, `batch_message_propagation`,
  and the ready/busy pool-manager loop of `main`).

Python floats are modelled as rationals (`ℚ`); the time comparisons in the
source (`abs(a - b) > 0.5`) are exact on the values the simulator uses, so
nothing in the claims depends on floating-point rounding.  MPI sends are
modelled as event traces; randomness (`rnd.choice`, `rnd.random`,
`rnd.randint`) is modelled by explicit oracles supplied as arguments.
-/

namespace Carisma

/-! ### Stable sort, modelling Python's `sorted`

Python's `sorted(l, key=k, reverse=True)` is a stable sort: among elements
with equal keys the original order is preserved, also with `reverse=True`
(CPython reverses the comparison, not the output).  We model it as a stable
insertion sort parameterised by a boolean relation `le`, where `le a b`
means "a may stay before b".  `sorted(l, key=k, reverse=True)` corresponds
to `stableSortBy (fun a b => k b ≤ k a) l`. -/

/-- Insert `a` into `l`, keeping every element `b` with `le b a` before `a`
(so an earlier element with an equal key stays in front: stability). -/
def stableInsert (le : α → α → Bool) (a : α) : List α → List α
  | [] => [a]
  | b :: bs => if le b a then b :: stableInsert le a bs else a :: b :: bs

/-- Stable sort by the boolean relation `le` (total preorder in all our
uses), processing elements left to right. -/
def stableSortBy (le : α → α → Bool) (l : List α) : List α :=
  l.foldl (fun acc a => stableInsert le a acc) []

/-! ### Data model of the FilCompliant pipeline

`Msg` models the message objects flowing through `agent_process.py` and
`policy_filter_process.py`: `uid` is the author's id (used by the
moderation purge `msg.uid != user.uid`), `time` the creation time, and
`reshared_original_id` the grouping key of a reshare.  In the source an
original post carries `np.nan` as its `reshared_original_id`; we model that
sentinel as `none`. -/
structure Msg where
  uid : Nat
  time : ℚ
  reshared_original_id : Option String
deriving DecidableEq

/-- The user/agent object seen by `policy_filter_process.py` and
`agent_pool_manager_process.py`. -/
structure User where
  uid : Nat
  newsfeed : List Msg
  is_flagged : Bool
  is_suspended : Bool
  is_terminated : Bool
  flagged_time : ℚ
  suspended_time : ℚ
  sus_strike_count : Nat
  bad_message_posting : Bool
deriving DecidableEq

/-- One element of a `users_packs_batch`: `(user, in_messages, current_time)`. -/
abbrev UserPack := User × List Msg × ℚ

/-! ### Feed merge (`run_agent`, `agent_process.py` lines 38-64) -/

/-- Models the Python test `message.reshared_original_id == np.nan`.
IEEE NaN compares unequal to every value including itself, so this test is
`False` for every message — also for originals whose id *is* `np.nan`. -/
def eqNpNan (_k : Option String) : Bool := false

/-- One step of the dedup loop of `run_agent`: state is
`(message_filter_dict, weight_dict, nan_parents)`.  Python dicts preserve
insertion order, so both dicts are association lists appending new keys at
the end; `not in` membership and `dict[k] += 1` use dict-key equality,
which for the `np.nan` singleton behaves as identity and hence matches our
`none`-key equality. -/
def dedupStep (st : List (Option String × Msg) × List (Option String × Nat) × List Msg)
    (message : Msg) :
    List (Option String × Msg) × List (Option String × Nat) × List Msg :=
  let (filterDict, weightDict, nanParents) := st
  if eqNpNan message.reshared_original_id then
    (filterDict, weightDict, nanParents ++ [message])
  else
    match filterDict.lookup message.reshared_original_id with
    | none =>
        (filterDict ++ [(message.reshared_original_id, message)],
         weightDict ++ [(message.reshared_original_id, 1)],
         nanParents)
    | some _ =>
        (filterDict,
         weightDict.map (fun kv =>
           if kv.1 = message.reshared_original_id then (kv.1, kv.2 + 1) else kv),
         nanParents)

/-- `weight_dict.get(k, 0)`. -/
def weightGet (weightDict : List (Option String × Nat)) (k : Option String) : Nat :=
  (weightDict.lookup k).getD 0

/-- The feed-merge section of `run_agent` (`agent_process.py` lines 38-64):
concatenate inbound messages with the newsfeed, sort by time descending,
run the dedup loop, recombine dict values with `nan_parents`, sort by time
descending and then stably by `(weight, time)` descending. -/
def run_agent_merge (in_messages : List Msg) (newsfeed : List Msg) : List Msg :=
  let raw_messages := in_messages ++ newsfeed
  let sorted_messages := stableSortBy (fun a b => decide (b.time ≤ a.time)) raw_messages
  let st := sorted_messages.foldl dedupStep ([], [], [])
  let message_filter_dict := st.1
  let weight_dict := st.2.1
  let nan_parents := st.2.2
  let new_newsfeed := message_filter_dict.map (·.2) ++ nan_parents
  let new_newsfeed := stableSortBy (fun a b => decide (b.time ≤ a.time)) new_newsfeed
  stableSortBy
    (fun a b =>
      decide (weightGet weight_dict b.reshared_original_id <
                weightGet weight_dict a.reshared_original_id ∨
        (weightGet weight_dict b.reshared_original_id =
            weightGet weight_dict a.reshared_original_id ∧ b.time ≤ a.time)))
    new_newsfeed

/-! ### Moderation state machine (`policy_filter_process.py`)

`suspension(user, users_packs_batch, current_time)` mutates the user object
(which is also the batch entry at the focus index) and the feeds of every
batch member in place.  We model one call as a pure function on the whole
batch, focused at index `i`; the intermediate `user` versions mirror the
successive in-place mutations of the Python object. -/

/-- Lines 15-20 of `policy_filter_process.py`: lift suspension and flagging
once their 0.5-time-unit cooldown has elapsed. -/
def liftCooldowns (user : User) (current_time : ℚ) : User :=
  let user :=
    if user.is_suspended ∧ |current_time - user.suspended_time| > 1/2 then
      { user with is_suspended := false }
    else user
  if user.is_flagged ∧ |current_time - user.flagged_time| > 1/2 then
    { user with is_flagged := false }
  else user

/-- Lines 24-35: record the strike for a bad message.  Not currently
flagged: flag and suspend, record both timestamps; already flagged: only
suspend and record `suspended_time`.  Both branches increment
`sus_strike_count`. -/
def applyStrike (user : User) (current_time : ℚ) : User :=
  if ¬ user.is_flagged then
    { user with
      is_flagged := true
      is_suspended := true
      sus_strike_count := user.sus_strike_count + 1
      flagged_time := current_time
      suspended_time := current_time }
  else
    { user with
      is_suspended := true
      suspended_time := current_time
      sus_strike_count := user.sus_strike_count + 1 }

/-- Lines 42-46: drop from a feed every message authored by `uid`
(`msg for msg in other_user.newsfeed if msg.uid != user.uid`). -/
def purgeFeed (v : User) (uid : Nat) : User :=
  { v with newsfeed := v.newsfeed.filter (fun m => m.uid ≠ uid) }

/-- The focus user's state after the strike bookkeeping of lines 24-35 and
the feed clear of line 39 (`user.newsfeed = []`). -/
def strikeUser (u : User) (t : ℚ) : User :=
  { applyStrike (liftCooldowns u t) t with newsfeed := [] }

/-- The focus user's final state: lines 42-45 also run the purge over the
user's own (already empty) feed, and lines 48-50 apply the termination
check `sus_strike_count >= 3`. -/
def strikeFinal (u : User) (t : ℚ) : User :=
  let u4 := purgeFeed (strikeUser u t) (strikeUser u t).uid
  if u4.sus_strike_count ≥ 3 then { u4 with is_terminated := true } else u4

/-- `suspension(user, users_packs_batch, current_time)` where `user` is the
batch entry at index `i` and `current_time` its pack timestamp, exactly as
`run_policy_filter` calls it.  Every `hasattr(user, "newsfeed")` guard in
the source is `True` in this model (the field always exists).  The final
`batch.set i` collects all in-place mutations of the focus Python object:
cooldown lifts, strike bookkeeping, feed clear, self-purge, termination
check. -/
def suspension (batch : List UserPack) (i : Nat) : List UserPack :=
  match batch.get? i with
  | none => batch
  | some (user0, msgs, t) =>
      if (liftCooldowns user0 t).bad_message_posting then
        ((batch.set i (strikeUser user0 t, msgs, t)).map
            (fun p => (purgeFeed p.1 (strikeUser user0 t).uid, p.2.1, p.2.2))).set i
          (strikeFinal user0 t, msgs, t)
      else
        batch.set i (liftCooldowns user0 t, msgs, t)

/-- The batch pass of `run_policy_filter` (lines 80-89): process each pack
in batch order, each step applying `suspension` with the current (already
partially mutated) batch. -/
def run_policy_filter (batch : List UserPack) : List UserPack :=
  (List.range batch.length).foldl suspension batch

/-! ### Dispatching stages

The MPI calls of one loop iteration are modelled as an event trace.
`isendPack` is the non-blocking `comm_world.isend(user_pack, dest=...)`;
`waitallDispatch n` is `MPI.Request.waitall(dispatch_requests)` over the
`n` accumulated requests — it completes before the loop returns to its
blocking `recv`, so a trace ending in `waitallDispatch n` accepts the next
batch only after all `n` sends were accepted.  `sigtermTo` is the blocking
`comm_world.send("sigterm", dest=...)`. -/
inductive PEvent where
  | isendPack (dest : Nat) (p : UserPack)
  | waitallDispatch (n : Nat)
  | sigtermTo (dest : Nat)
deriving DecidableEq

/-- What one `recv` of a dispatching stage can yield: the `"sigterm"`
sentinel, a `None`/`""` value, or a real batch. -/
inductive PMMsg where
  | sigterm
  | emptyBatch
  | batch (b : List UserPack)

/-- Loop control after handling one received message. -/
inductive LoopCtl where
  | next
  | exit
deriving DecidableEq

/-- The dispatch `while` loop (`agent_pool_manager_process.py` lines 52-68
and `handler_pool_manager_proc.py` lines 39-55): `pop()` removes the *last*
element of the remaining list, so the loop visits the batch in reverse; we
recurse over the reversed list, `k` counting already issued sends.
`rnd.choice(agent_handlers_ranks)` is modelled by the oracle `pick`,
reduced modulo the pool size (uniformity is a property of Python's
`rnd.choice` over the rank list, outside the embedding). -/
def dispatchEventsRev (handlers : List Nat) (pick : Nat → Nat) :
    Nat → List UserPack → List PEvent
  | _, [] => []
  | k, p :: rest =>
      PEvent.isendPack (handlers.getD (pick k % handlers.length) 0) p ::
        dispatchEventsRev handlers pick (k + 1) rest

/-- One loop iteration of `run_agent_pool_manager`
(`agent_pool_manager_process.py` lines 26-71): skip `None`/`""` batches
with a warning, break on `"sigterm"`, otherwise filter out suspended or
terminated users, skip (with a warning) if none remain, and else dispatch
every active pack followed by the `waitall` over all issued requests. -/
def run_agent_pool_manager_step (handlers : List Nat) (pick : Nat → Nat) :
    PMMsg → List PEvent × LoopCtl
  | .sigterm => ([], .exit)
  | .emptyBatch => ([], .next)
  | .batch b =>
      let active := b.filter (fun p => !(p.1.is_suspended || p.1.is_terminated))
      if active.isEmpty then ([], .next)
      else
        let sends := dispatchEventsRev handlers pick 0 active.reverse
        (sends ++ [PEvent.waitallDispatch sends.length], .next)

/-- Lines 74-75 of `agent_pool_manager_process.py`, executed after the
loop breaks: `for i in range(rank_index["agent_handler"], size):
send("sigterm", dest=i)`.  `range(a, b)` is `(List.range b).drop a`. -/
def run_agent_pool_manager_shutdown (rankAgentHandler size : Nat) : List PEvent :=
  ((List.range size).drop rankAgentHandler).map PEvent.sigtermTo

/-- What one `recv` of the FilCompliant pool manager or the policy filter
can yield (no `None`/`""` guard in those loops). -/
inductive PFMsg where
  | sigterm
  | batch (b : List UserPack)

/-- One loop iteration of `run_handler_pool_manager`
(`handler_pool_manager_proc.py` lines 24-58): break on `"sigterm"`,
otherwise dispatch *every* pack of the batch — this variant has no
suspended/terminated filter — then `waitall`. -/
def run_handler_pool_manager_step (handlers : List Nat) (pick : Nat → Nat) :
    PFMsg → List PEvent × LoopCtl
  | .sigterm => ([], .exit)
  | .batch b =>
      let sends := dispatchEventsRev handlers pick 0 b.reverse
      (sends ++ [PEvent.waitallDispatch sends.length], .next)

/-- Payload the policy filter sends to the agent pool manager. -/
inductive PFOut where
  | sigtermMsg
  | processed (b : List UserPack)
deriving DecidableEq

/-- One loop iteration of `run_policy_filter`
(`policy_filter_process.py` lines 65-95): on `"sigterm"`, forward the
sentinel to the agent pool manager and break; on a batch, run the
moderation pass and `isend` the processed batch onward. -/
def run_policy_filter_step : PFMsg → List PFOut × LoopCtl
  | .sigterm => ([PFOut.sigtermMsg], .exit)
  | .batch b => ([PFOut.processed (run_policy_filter b)], .next)

/-! ### Reboot pipeline (`reboot/simsom_core.py`) -/

namespace Reboot

/-- `Message` of `simsom_core.py` (lines 102-108): `mid` plus a creation
timestamp (`time.time()` at construction, supplied by the caller's clock
oracle here; the optional `content` payload is always `None` at every call
site and is omitted). -/
structure Message where
  mid : String
  timestamp : ℚ
deriving DecidableEq

/-- `Agent` of `simsom_core.py` (lines 111-119). -/
structure Agent where
  aid : String
  followers : List String
  newsfeed : List Message
  post_counter : Nat
  repost_counter : Nat
deriving DecidableEq

/-- Oracle for the ambient randomness and clock used by `make_actions`:
`nActions` is the value of `rnd.randint(0, 4)`, `repostRoll k` the outcome
of `rnd.random() < 0.8` on loop iteration `k`, `choiceIx k` the index drawn
by `rnd.choice(self.newsfeed)`, and `tick k` the `time.time()` stamp of the
message created on iteration `k`. -/
structure Rng where
  nActions : Nat
  repostRoll : Nat → Bool
  choiceIx : Nat → Nat
  tick : Nat → ℚ

/-- The body of one iteration of the `for` loop of `make_actions`
(lines 126-144): repost a random newsfeed entry with probability 0.8 when
the feed is non-empty, otherwise create a new post. -/
def makeActionsIter (rng : Rng) (k : Nat) (st : Agent × List Message) :
    Agent × List Message :=
  let (ag, actions) := st
  if ag.newsfeed.length > 0 ∧ rng.repostRoll k then
    let repost := ag.newsfeed.getD (rng.choiceIx k % ag.newsfeed.length)
      { mid := "", timestamp := 0 }
    let new_msg : Message :=
      { mid := repost.mid ++ "_repost_" ++ ag.aid ++ "_" ++ toString ag.repost_counter
        timestamp := rng.tick k }
    ({ ag with repost_counter := ag.repost_counter + 1 }, actions ++ [new_msg])
  else
    let new_msg : Message :=
      { mid := ag.aid ++ "_post_" ++ toString ag.post_counter
        timestamp := rng.tick k }
    ({ ag with post_counter := ag.post_counter + 1 }, actions ++ [new_msg])

/-- `Agent.make_actions` (`simsom_core.py` lines 121-149): run
`rnd.randint(0, 4)` loop iterations, then apply the naive newsfeed cut-off
`self.newsfeed = self.newsfeed[:cut_off]`, and return the updated agent
together with the produced actions.  Every call site uses the default
`cut_off=15`. -/
def make_actions (agent : Agent) (rng : Rng) (cut_off : Nat) :
    Agent × List Message :=
  let st := (List.range rng.nActions).foldl (fun st k => makeActionsIter rng k st)
    (agent, [])
  ({ st.1 with newsfeed := st.1.newsfeed.take cut_off }, st.2)

/-- One worker cycle of the reboot handler (`simsom_core.py` lines
378-384): prepend the inbound messages to the newsfeed, then
`make_actions` (with its default cut-off 15). -/
def handlerCycle (agent : Agent) (messages : List Message) (rng : Rng) :
    Agent × List Message :=
  let agent := { agent with newsfeed := messages ++ agent.newsfeed }
  make_actions agent rng 15

/-! #### Message board and fan-out -/

/-- `incoming_message_board`: a dict from agent id to its pending inbound
messages, modelled as an insertion-ordered association list. -/
abbrev Board := List (String × List Message)

/-- `message_board[follower_aid].append(copy.deepcopy(m))`: the deep copy
makes each delivered message an independent value, which is what appending
the immutable `m` already gives in this model.  A missing key never occurs
in the source (the board is initialised with every agent id); on a missing
key this model delivers nothing. -/
def boardAppend (board : Board) (aid : String) (m : Message) : Board :=
  board.map (fun kv => if kv.1 = aid then (kv.1, kv.2 ++ [m]) else kv)

/-- `message_board[aid]` (used with an always-present key). -/
def boardGet (board : Board) (aid : String) : List Message :=
  (board.lookup aid).getD []

/-- `message_board[aid] = []`. -/
def boardSet (board : Board) (aid : String) (v : List Message) : Board :=
  board.map (fun kv => if kv.1 = aid then (kv.1, v) else kv)

/-- Split a list into chunks of size `n` (`followers[i : i + batch_size]`
for `i in range(0, len(followers), batch_size)`); only used with
`n = 1000`. -/
def listChunks (n : Nat) : List α → List (List α)
  | [] => []
  | a :: rest => ((a :: rest).take n) :: listChunks n (rest.drop (n - 1))
  termination_by l => l.length
  decreasing_by simp [List.length_drop]; omega

/-- `batch_message_propagation` (`simsom_core.py` lines 204-214): deliver
every message to every follower, in chunks of 1000 followers. -/
def batch_message_propagation (board : Board) (agent : Agent)
    (messages : List Message) : Board :=
  (listChunks 1000 agent.followers).foldl
    (fun bd chunk =>
      messages.foldl
        (fun bd m => chunk.foldl (fun bd f => boardAppend bd f m) bd) bd)
    board

/-! #### The ready/busy pool-manager loop (`main`, lines 259-335)

The manager's local view: the pool of agents it still holds, the ready and
busy handler rank lists, and the message board.  `inflight` models the
transport plus the worker processes: each entry is a work package
`(handler_rank, agent, messages)` that has been `isend`-ed (and awaited
with `req.wait()`) but whose reply has not been received yet.  A reply
received from rank `r` is the result of `handlerCycle` applied to the
package dispatched to `r` (workers answer their own queue in receipt
order, and messages on a fixed sender/receiver pair are ordered, so the
oldest in-flight package for `r` is the one answered first). -/
structure PMState where
  agents : List Agent
  ready : List Nat
  busy : List Nat
  inflight : List (Nat × Agent × List Message)
  board : Board
deriving DecidableEq

/-- Per-iteration oracle: `agentIdx` the value of
`rnd.choice(range(len(agents)))`, `probe r` the outcome of
`comm_world.Iprobe(source=r)` during this iteration's completion sweep,
and `rng r` the worker randomness behind the reply received from rank
`r`. -/
structure StepOracle where
  agentIdx : Nat
  probe : Nat → Bool
  rng : Nat → Rng

/-- Lines 278-300: when agents and a ready handler are available, pick an
agent at random, pop the last ready handler (`list.pop()`), send the work
package `(picked_agent, incoming_message_board[aid])`, flush that board
entry, and mark the handler busy. -/
def dispatchPhase (o : StepOracle) (s : PMState) : PMState :=
  match s.agents, s.ready.getLast? with
  | [], _ => s
  | _ :: _, none => s
  | a0 :: rest, some handler_rank =>
      let agents := a0 :: rest
      let agent_index := o.agentIdx % agents.length
      let picked_agent := agents.getD agent_index a0
      let agents' := agents.eraseIdx agent_index
      let msgs := boardGet s.board picked_agent.aid
      { agents := agents'
        ready := s.ready.dropLast
        busy := s.busy ++ [handler_rank]
        inflight := s.inflight ++ [(handler_rank, picked_agent, msgs)]
        board := boardSet s.board picked_agent.aid [] }

/-- Remove the oldest in-flight package addressed to `src`, returning its
payload and the remaining in-flight list. -/
def inflightTake (src : Nat) :
    List (Nat × Agent × List Message) →
      Option ((Agent × List Message) × List (Nat × Agent × List Message))
  | [] => none
  | (r, a, m) :: rest =>
      if r = src then some ((a, m), rest)
      else
        match inflightTake src rest with
        | none => none
        | some (payload, rest') => some (payload, (r, a, m) :: rest')

/-- Lines 304-327, one probe of the completion sweep: if a reply from
`src` is available, receive `(updated_agent, new_messages)` — the worker's
`handlerCycle` output for the oldest package sent to `src` — re-insert the
agent, propagate its messages, and move `src` from busy back to ready.
When nothing is in flight for `src` the probe cannot succeed and the state
is unchanged. -/
def completionOne (o : StepOracle) (s : PMState) (src : Nat) : PMState :=
  if o.probe src then
    match inflightTake src s.inflight with
    | none => s
    | some ((a, msgs), inflight') =>
        let reply := handlerCycle a msgs (o.rng src)
        let updated_agent := reply.1
        let new_messages := reply.2
        { agents := s.agents ++ [updated_agent]
          ready := s.ready ++ [src]
          busy := s.busy.erase src
          inflight := inflight'
          board := batch_message_propagation s.board updated_agent new_messages }
  else s

/-- Lines 304-327: iterate over a snapshot (`busy_handlers_list[:]`) of
the busy list taken before the sweep, while the real lists mutate. -/
def completionSweep (o : StepOracle) (s : PMState) : PMState :=
  s.busy.foldl (completionOne o) s

/-- One iteration of the `while iteration < max_iterations` loop
(lines 276-335): the dispatch attempt followed by the completion sweep. -/
def pmStep (o : StepOracle) (s : PMState) : PMState :=
  completionSweep o (dispatchPhase o s)

/-- Run the loop under a list of per-iteration oracles. -/
def pmRun (os : List StepOracle) (s : PMState) : PMState :=
  os.foldl (fun s o => pmStep o s) s

/-- The manager's state just after initialization (lines 245-266):
`ready_handlers_list = list(range(1, size))` (rank 0 is the manager), no
busy handlers, nothing in flight, and an empty board entry per agent. -/
def initState (size : Nat) (agents : List Agent) : PMState :=
  { agents := agents
    ready := (List.range size).drop 1
    busy := []
    inflight := []
    board := agents.map (fun a => (a.aid, [])) }

/-- The loop invariant of the ready/busy pool manager: ready and busy
together are a permutation of the fixed handler pool, the in-flight
packages correspond one-to-one (and in order) to the busy handlers, and
the agents held locally plus the agents in flight account for the whole
population. -/
def pmInv (pool : List Nat) (n : Nat) (s : PMState) : Prop :=
  (s.ready ++ s.busy).Perm pool ∧
  s.inflight.map (fun e => e.1) = s.busy ∧
  s.agents.length + s.inflight.length = n

end Reboot

/-! ### The merge-variant worker cycle (`run_agent`, `agent_process.py`)

`run_agent` merges the inbound messages into the feed with
`run_agent_merge` and then calls `user.make_actions()`.  The `User` class
providing that method lives outside `src/` (only its caller is present). -/

/-- Modelled from the spec: the `make_actions` method of the `User` object
processed by `run_agent` is not under `src/`; per §4.2 the worker's step
(b) invokes the external action-generation collaborator (producing the new
content and passive actions, here an oracle `acts`) and step (c) applies
the cutoff truncation to the feed. -/
def userMakeActions (newsfeed : List Msg) (cutoff : Nat)
    (acts : List Msg × List String) : List Msg × (List Msg × List String) :=
  (newsfeed.take cutoff, acts)

/-- One worker cycle of `run_agent` (`agent_process.py` lines 35-73):
the feed-merge pipeline followed by `user.make_actions()`; returns the
agent's final newsfeed and the produced actions. -/
def run_agent_cycle (newsfeed in_messages : List Msg) (cutoff : Nat)
    (acts : List Msg × List String) : List Msg × (List Msg × List String) :=
  userMakeActions (run_agent_merge in_messages newsfeed) cutoff acts

/-! ### Concrete fixtures used to evaluate the model on explicit inputs -/

/-- A user in the clean moderation state. -/
def cleanUser : User :=
  { uid := 5, newsfeed := [], is_flagged := false, is_suspended := false,
    is_terminated := false, flagged_time := 0, suspended_time := 0,
    sus_strike_count := 0, bad_message_posting := false }

/-- A currently suspended user. -/
def suspendedUser : User :=
  { uid := 7, newsfeed := [], is_flagged := true, is_suspended := true,
    is_terminated := false, flagged_time := 0, suspended_time := 0,
    sus_strike_count := 1, bad_message_posting := false }

/-- A terminated user. -/
def terminatedUser : User :=
  { uid := 9, newsfeed := [], is_flagged := true, is_suspended := false,
    is_terminated := true, flagged_time := 0, suspended_time := 0,
    sus_strike_count := 3, bad_message_posting := false }

/-- A user flagged at time 100 who posts a policy violation. -/
def flaggedOffender : User :=
  { uid := 11, newsfeed := [], is_flagged := true, is_suspended := false,
    is_terminated := false, flagged_time := 100, suspended_time := 100,
    sus_strike_count := 1, bad_message_posting := true }

/-- A clean bystander whose feed holds a message authored by user 11. -/
def bystanderUser : User :=
  { uid := 12,
    newsfeed := [{ uid := 11, time := 1, reshared_original_id := none },
                 { uid := 12, time := 2, reshared_original_id := none }],
    is_flagged := false, is_suspended := false, is_terminated := false,
    flagged_time := 0, suspended_time := 0, sus_strike_count := 0,
    bad_message_posting := false }

/-! ### Helper lemmas on the dispatch loop -/

/-- Every event issued by the dispatch loop is a non-blocking send of one
of the remaining packs, addressed (when the pool is non-empty) to a member
of the handler rank pool. -/
theorem mem_dispatchEventsRev {handlers : List Nat} {pick : Nat → Nat} :
    ∀ {k : Nat} {l : List UserPack} {e : PEvent},
      e ∈ dispatchEventsRev handlers pick k l →
      ∃ d p, e = PEvent.isendPack d p ∧ p ∈ l ∧ (handlers ≠ [] → d ∈ handlers)
  | _, [], _, h => by simp [dispatchEventsRev] at h
  | k, p :: rest, e, h => by
      simp only [dispatchEventsRev, List.mem_cons] at h
      rcases h with h | h
      · refine ⟨_, p, h, List.mem_cons_self _ _, fun hne => ?_⟩
        have hlen : 0 < handlers.length := List.length_pos.mpr hne
        have hlt : pick k % handlers.length < handlers.length := Nat.mod_lt _ hlen
        rw [List.getD_eq_get _ _ hlt]
        exact List.get_mem _ _ _
      · obtain ⟨d, q, he, hq, hd⟩ := mem_dispatchEventsRev h
        exact ⟨d, q, he, List.mem_cons_of_mem _ hq, hd⟩

/-- The dispatch loop issues exactly one send per remaining pack. -/
theorem length_dispatchEventsRev (handlers : List Nat) (pick : Nat → Nat) :
    ∀ (k : Nat) (l : List UserPack),
      (dispatchEventsRev handlers pick k l).length = l.length
  | _, [] => rfl
  | k, _ :: rest => by
      simp [dispatchEventsRev, length_dispatchEventsRev handlers pick (k + 1) rest]

/-! ### C1 -/

/-- C1: the claim states that the feed merge keeps every item with no
`origin_group_key` as an original of weight 0 and deduplicates only items
that have one.  The code's originals test `reshared_original_id == np.nan`
is always `False` (NaN is unequal to itself), so *all* items — including
originals, whose key is the single `np.nan` object — are deduplicated by
key.  On the feed merge of an empty feed with two original posts
`a (time 10)` and `d (time 9)` (both with no group key), the merge keeps
only `a` instead of both: the two originals collapse into one dict entry
of weight 2. -/
theorem C1_originals_collapse_under_nan_key :
    run_agent_merge
        [{ uid := 1, time := 10, reshared_original_id := none },
         { uid := 4, time := 9, reshared_original_id := none }] [] =
      [{ uid := 1, time := 10, reshared_original_id := none }] ∧
    run_agent_merge
        [{ uid := 1, time := 10, reshared_original_id := none },
         { uid := 4, time := 9, reshared_original_id := none }] [] ≠
      [{ uid := 1, time := 10, reshared_original_id := none },
       { uid := 4, time := 9, reshared_original_id := none }] := by
  constructor
  · decide
  · decide

/-! ### C2 -/

/-- C2 counterexample: the claim asserts that *every* dispatch strategy
variant filters out suspended and terminated agents.  The FilCompliant
variant `run_handler_pool_manager` dispatches every pack of the batch
without any filter: a batch whose only member is suspended produces a
`WorkItem` send containing that suspended agent. -/
theorem C2_counterexample_filcompliant_dispatches_suspended :
    (run_handler_pool_manager_step [1] (fun _ => 0)
        (PFMsg.batch [(suspendedUser, [], 0)])).1 =
      [PEvent.isendPack 1 (suspendedUser, [], 0), PEvent.waitallDispatch 1] ∧
    suspendedUser.is_suspended = true := by
  constructor
  · decide
  · rfl

/-- C2 (amended): in the `run_agent_pool_manager` dispatch strategy, no
agent with `is_suspended` or `is_terminated` is ever contained in a
`WorkItem` sent to a worker; the FilCompliant `run_handler_pool_manager`
variant performs no such filtering. -/
theorem C2_pool_manager_never_dispatches_suspended
    (handlers : List Nat) (pick : Nat → Nat) (b : List UserPack)
    (d : Nat) (p : UserPack)
    (hmem : PEvent.isendPack d p ∈
      (run_agent_pool_manager_step handlers pick (PMMsg.batch b)).1) :
    p.1.is_suspended = false ∧ p.1.is_terminated = false := by
  simp only [run_agent_pool_manager_step] at hmem
  split at hmem
  · simp at hmem
  · simp only [List.mem_append, List.mem_singleton] at hmem
    rcases hmem with hmem | hmem
    · obtain ⟨d', q, he, hq, _⟩ := mem_dispatchEventsRev hmem
      obtain ⟨rfl, rfl⟩ : d' = d ∧ q = p := by
        constructor <;> injection he <;> simp_all
      have hq' := List.mem_reverse.mp hq
      have hprop := (List.mem_filter.mp hq').2
      simp only [Bool.not_eq_true', Bool.or_eq_false_iff] at hprop
      exact ⟨hprop.1, hprop.2⟩
    · cases hmem

/-- C2 witness: the amended theorem applied to a concrete batch holding
one clean agent, dispatched to the single worker rank 1. -/
theorem C2_pool_manager_never_dispatches_suspended_witness :
    cleanUser.is_suspended = false ∧ cleanUser.is_terminated = false :=
  C2_pool_manager_never_dispatches_suspended [1] (fun _ => 0)
    [(cleanUser, [], 0)] 1 (cleanUser, [], 0) (by decide)

/-! ### C6 -/

/-- C6: on a batch with at least one dispatchable agent, the
unbounded-random dispatcher issues exactly one non-blocking send per
dispatchable agent, each addressed to a member of the worker rank pool
(the pick itself being the `rnd.choice` oracle, with replacement), and the
iteration ends with the `waitall` over all issued requests before the loop
returns to receive the next batch. -/
theorem C6_unbounded_random_dispatch (handlers : List Nat) (pick : Nat → Nat)
    (b : List UserPack) (hh : handlers ≠ [])
    (hactive : b.filter (fun p => !(p.1.is_suspended || p.1.is_terminated)) ≠ []) :
    ∃ sends : List PEvent,
      run_agent_pool_manager_step handlers pick (PMMsg.batch b) =
        (sends ++ [PEvent.waitallDispatch sends.length], LoopCtl.next) ∧
      sends.length =
        (b.filter (fun p => !(p.1.is_suspended || p.1.is_terminated))).length ∧
      ∀ e ∈ sends, ∃ d p, e = PEvent.isendPack d p ∧ d ∈ handlers ∧
        p ∈ b.filter (fun p => !(p.1.is_suspended || p.1.is_terminated)) := by
  refine ⟨dispatchEventsRev handlers pick 0
    (b.filter (fun p => !(p.1.is_suspended || p.1.is_terminated))).reverse,
    ?_, ?_, ?_⟩
  · simp only [run_agent_pool_manager_step]
    rw [if_neg (by simpa [List.isEmpty_iff] using hactive)]
  · rw [length_dispatchEventsRev, List.length_reverse]
  · intro e he
    obtain ⟨d, p, rfl, hp, hd⟩ := mem_dispatchEventsRev he
    exact ⟨d, p, rfl, hd hh, List.mem_reverse.mp hp⟩

/-- C6 witness: three workers, a batch with one clean agent. -/
theorem C6_unbounded_random_dispatch_witness :
    ∃ sends : List PEvent,
      run_agent_pool_manager_step [1, 2, 3] (fun k => k)
          (PMMsg.batch [(cleanUser, [], 0)]) =
        (sends ++ [PEvent.waitallDispatch sends.length], LoopCtl.next) ∧
      sends.length =
        (([(cleanUser, [], 0)] : List UserPack).filter
          (fun p => !(p.1.is_suspended || p.1.is_terminated))).length ∧
      ∀ e ∈ sends, ∃ d p, e = PEvent.isendPack d p ∧ d ∈ [1, 2, 3] ∧
        p ∈ ([(cleanUser, [], 0)] : List UserPack).filter
          (fun p => !(p.1.is_suspended || p.1.is_terminated)) :=
  C6_unbounded_random_dispatch [1, 2, 3] (fun k => k) _ (by decide) (by decide)

/-! ### C7 -/

/-- C7: on receiving the shutdown sentinel, the moderation stage forwards
it exactly once to the dispatcher and exits its loop; the dispatcher exits
its loop without dispatching and then sends the sentinel exactly once to
every worker rank in its pool (`range(rank_index["agent_handler"], size)`),
and sends it to nothing else. -/
theorem C7_sentinel_forwarding (ah size : Nat) (handlers : List Nat)
    (pick : Nat → Nat) :
    run_policy_filter_step PFMsg.sigterm = ([PFOut.sigtermMsg], LoopCtl.exit) ∧
    run_agent_pool_manager_step handlers pick PMMsg.sigterm =
      ([], LoopCtl.exit) ∧
    (∀ r ∈ (List.range size).drop ah,
      (run_agent_pool_manager_shutdown ah size).countP
        (fun e => decide (e = PEvent.sigtermTo r)) = 1) ∧
    (∀ e ∈ run_agent_pool_manager_shutdown ah size,
      ∃ r ∈ (List.range size).drop ah, e = PEvent.sigtermTo r) := by
  refine ⟨rfl, rfl, ?_, ?_⟩
  · intro r hr
    unfold run_agent_pool_manager_shutdown
    rw [List.countP_map]
    have hnd : ((List.range size).drop ah).Nodup :=
      (List.drop_sublist ah (List.range size)).nodup (List.nodup_range size)
    have hcount : ((List.range size).drop ah).count r = 1 :=
      List.count_eq_one_of_mem hnd hr
    rw [← hcount]
    unfold List.count
    apply List.countP_congr
    intro x _
    by_cases hxr : x = r
    · simp [hxr]
    · simp [hxr, PEvent.sigtermTo.injEq]
  · intro e he
    unfold run_agent_pool_manager_shutdown at he
    obtain ⟨r, hr, rfl⟩ := List.mem_map.mp he
    exact ⟨r, hr, rfl⟩

/-! ### C8 -/

/-- C8: after a worker cycle completes, the agent's feed length is at most
the fixed cutoff: the reboot handler cycle (prepend inbound messages, then
`make_actions` with its default cutoff 15) leaves at most 15 entries, and
the merge-variant worker cycle of `run_agent` (feed merge, then the
truncating `make_actions`) leaves at most `cutoff` entries. -/
theorem C8_cutoff_invariant :
    (∀ (agent : Reboot.Agent) (messages : List Reboot.Message)
        (rng : Reboot.Rng),
        (Reboot.handlerCycle agent messages rng).1.newsfeed.length ≤ 15) ∧
    (∀ (newsfeed in_messages : List Msg) (cutoff : Nat)
        (acts : List Msg × List String),
        (run_agent_cycle newsfeed in_messages cutoff acts).1.length ≤ cutoff) := by
  constructor
  · intro agent messages rng
    simp only [Reboot.handlerCycle, Reboot.make_actions]
    simp [List.length_take]
  · intro newsfeed in_messages cutoff acts
    simp only [run_agent_cycle, userMakeActions]
    simp [List.length_take]

/-! ### C9 -/

/-- C9: a batch in which every agent is suspended or terminated leaves no
dispatchable agent after filtering; the dispatcher sends nothing, treats
this as neither an error nor termination (a warning plus `continue`), and
goes back to waiting for the next batch. -/
theorem C9_all_suspended_batch_is_noop (handlers : List Nat)
    (pick : Nat → Nat) (b : List UserPack)
    (h : ∀ p ∈ b, p.1.is_suspended = true ∨ p.1.is_terminated = true) :
    run_agent_pool_manager_step handlers pick (PMMsg.batch b) =
      ([], LoopCtl.next) := by
  have hfilter : b.filter (fun p => !(p.1.is_suspended || p.1.is_terminated)) = [] := by
    rw [List.filter_eq_nil]
    intro p hp
    rcases h p hp with h1 | h1 <;> simp [h1]
  simp only [run_agent_pool_manager_step]
  rw [if_pos (by rw [hfilter]; rfl)]

/-- C9 witness: a batch of one suspended and one terminated agent yields
zero sends and a `continue`. -/
theorem C9_all_suspended_batch_is_noop_witness :
    run_agent_pool_manager_step [1, 2] (fun k => k)
        (PMMsg.batch [(suspendedUser, [], 0), (terminatedUser, [], 0)]) =
      ([], LoopCtl.next) :=
  C9_all_suspended_batch_is_noop [1, 2] (fun k => k) _ (by decide)

/-! ### Helper lemmas on the moderation step -/

theorem liftCooldowns_newsfeed (u : User) (t : ℚ) :
    (liftCooldowns u t).newsfeed = u.newsfeed := by
  unfold liftCooldowns
  dsimp only
  split <;> split <;> rfl

theorem liftCooldowns_uid (u : User) (t : ℚ) :
    (liftCooldowns u t).uid = u.uid := by
  unfold liftCooldowns
  dsimp only
  split <;> split <;> rfl

theorem liftCooldowns_bad (u : User) (t : ℚ) :
    (liftCooldowns u t).bad_message_posting = u.bad_message_posting := by
  unfold liftCooldowns
  dsimp only
  split <;> split <;> rfl

theorem liftCooldowns_strike (u : User) (t : ℚ) :
    (liftCooldowns u t).sus_strike_count = u.sus_strike_count := by
  unfold liftCooldowns
  dsimp only
  split <;> split <;> rfl

theorem liftCooldowns_terminated (u : User) (t : ℚ) :
    (liftCooldowns u t).is_terminated = u.is_terminated := by
  unfold liftCooldowns
  dsimp only
  split <;> split <;> rfl

theorem liftCooldowns_flagged_time (u : User) (t : ℚ) :
    (liftCooldowns u t).flagged_time = u.flagged_time := by
  unfold liftCooldowns
  dsimp only
  split <;> split <;> rfl

theorem applyStrike_suspended (u : User) (t : ℚ) :
    (applyStrike u t).is_suspended = true := by
  unfold applyStrike
  split <;> rfl

theorem applyStrike_suspended_time (u : User) (t : ℚ) :
    (applyStrike u t).suspended_time = t := by
  unfold applyStrike
  split <;> rfl

theorem applyStrike_strike (u : User) (t : ℚ) :
    (applyStrike u t).sus_strike_count = u.sus_strike_count + 1 := by
  unfold applyStrike
  split <;> rfl

theorem applyStrike_uid (u : User) (t : ℚ) :
    (applyStrike u t).uid = u.uid := by
  unfold applyStrike
  split <;> rfl

theorem applyStrike_terminated (u : User) (t : ℚ) :
    (applyStrike u t).is_terminated = u.is_terminated := by
  unfold applyStrike
  split <;> rfl

theorem applyStrike_flagged_of_flagged (u : User) (t : ℚ)
    (h : u.is_flagged = true) :
    (applyStrike u t).is_flagged = u.is_flagged ∧
      (applyStrike u t).flagged_time = u.flagged_time := by
  unfold applyStrike
  rw [if_neg (by simp [h])]
  exact ⟨rfl, rfl⟩

theorem purgeFeed_scalars (v : User) (uid : Nat) :
    (purgeFeed v uid).uid = v.uid ∧
      (purgeFeed v uid).is_flagged = v.is_flagged ∧
      (purgeFeed v uid).is_suspended = v.is_suspended ∧
      (purgeFeed v uid).is_terminated = v.is_terminated ∧
      (purgeFeed v uid).flagged_time = v.flagged_time ∧
      (purgeFeed v uid).suspended_time = v.suspended_time ∧
      (purgeFeed v uid).sus_strike_count = v.sus_strike_count ∧
      (purgeFeed v uid).bad_message_posting = v.bad_message_posting :=
  ⟨rfl, rfl, rfl, rfl, rfl, rfl, rfl, rfl⟩

theorem mem_purgeFeed {v : User} {uid : Nat} {m : Msg}
    (h : m ∈ (purgeFeed v uid).newsfeed) : m ∈ v.newsfeed ∧ m.uid ≠ uid := by
  unfold purgeFeed at h
  have h' := List.mem_filter.mp h
  exact ⟨h'.1, by simpa using h'.2⟩

/-- Unfolding equation for `suspension`: no entry at `i`. -/
theorem suspension_none {batch : List UserPack} {i : Nat}
    (hg : batch.get? i = none) : suspension batch i = batch := by
  unfold suspension
  rw [hg]

/-- Unfolding equation for `suspension`: the focus user posted a bad
message this cycle. -/
theorem suspension_bad {batch : List UserPack} {i : Nat} {u : User}
    {msgs : List Msg} {t : ℚ} (hg : batch.get? i = some (u, msgs, t))
    (hbad : u.bad_message_posting = true) :
    suspension batch i =
      ((batch.set i (strikeUser u t, msgs, t)).map
          (fun p => (purgeFeed p.1 (strikeUser u t).uid, p.2.1, p.2.2))).set i
        (strikeFinal u t, msgs, t) := by
  unfold suspension
  rw [hg]
  dsimp only
  rw [if_pos (by rw [liftCooldowns_bad]; exact hbad)]

/-- Unfolding equation for `suspension`: no bad message this cycle. -/
theorem suspension_good {batch : List UserPack} {i : Nat} {u : User}
    {msgs : List Msg} {t : ℚ} (hg : batch.get? i = some (u, msgs, t))
    (hbad : u.bad_message_posting = false) :
    suspension batch i = batch.set i (liftCooldowns u t, msgs, t) := by
  unfold suspension
  rw [hg]
  dsimp only
  rw [if_neg (by rw [liftCooldowns_bad]; simp [hbad])]

/-- One `suspension` call leaves the batch length unchanged. -/
theorem length_suspension (batch : List UserPack) (i : Nat) :
    (suspension batch i).length = batch.length := by
  cases hg : batch.get? i with
  | none => rw [suspension_none hg]
  | some p =>
      obtain ⟨u, msgs, t⟩ := p
      cases hbad : u.bad_message_posting with
      | true =>
          rw [suspension_bad hg hbad]
          simp
      | false =>
          rw [suspension_good hg hbad]
          simp

theorem strikeUser_newsfeed (u : User) (t : ℚ) :
    (strikeUser u t).newsfeed = [] := rfl

theorem strikeUser_uid (u : User) (t : ℚ) : (strikeUser u t).uid = u.uid := by
  show (applyStrike (liftCooldowns u t) t).uid = u.uid
  rw [applyStrike_uid, liftCooldowns_uid]

theorem strikeFinal_newsfeed (u : User) (t : ℚ) :
    (strikeFinal u t).newsfeed = [] := by
  unfold strikeFinal
  dsimp only
  split <;> rfl

theorem strikeFinal_uid (u : User) (t : ℚ) : (strikeFinal u t).uid = u.uid := by
  have h : (purgeFeed (strikeUser u t) (strikeUser u t).uid).uid = u.uid := by
    show (strikeUser u t).uid = u.uid
    exact strikeUser_uid u t
  unfold strikeFinal
  dsimp only
  split <;> exact h

theorem strikeFinal_suspended (u : User) (t : ℚ) :
    (strikeFinal u t).is_suspended = true := by
  have h : (purgeFeed (strikeUser u t) (strikeUser u t).uid).is_suspended = true := by
    show (applyStrike (liftCooldowns u t) t).is_suspended = true
    exact applyStrike_suspended _ _
  unfold strikeFinal
  dsimp only
  split <;> exact h

theorem strikeFinal_suspended_time (u : User) (t : ℚ) :
    (strikeFinal u t).suspended_time = t := by
  have h : (purgeFeed (strikeUser u t) (strikeUser u t).uid).suspended_time = t := by
    show (applyStrike (liftCooldowns u t) t).suspended_time = t
    exact applyStrike_suspended_time _ _
  unfold strikeFinal
  dsimp only
  split <;> exact h

theorem strikeFinal_strike (u : User) (t : ℚ) :
    (strikeFinal u t).sus_strike_count = u.sus_strike_count + 1 := by
  have h : (purgeFeed (strikeUser u t) (strikeUser u t).uid).sus_strike_count =
      u.sus_strike_count + 1 := by
    show (applyStrike (liftCooldowns u t) t).sus_strike_count = u.sus_strike_count + 1
    rw [applyStrike_strike, liftCooldowns_strike]
  unfold strikeFinal
  dsimp only
  split <;> exact h

theorem strikeFinal_terminated (u : User) (t : ℚ) :
    (strikeFinal u t).is_terminated =
      if 3 ≤ u.sus_strike_count + 1 then true else u.is_terminated := by
  have hterm : (purgeFeed (strikeUser u t) (strikeUser u t).uid).is_terminated =
      u.is_terminated := by
    show (applyStrike (liftCooldowns u t) t).is_terminated = u.is_terminated
    rw [applyStrike_terminated, liftCooldowns_terminated]
  have hstr : (purgeFeed (strikeUser u t) (strikeUser u t).uid).sus_strike_count =
      u.sus_strike_count + 1 := by
    show (applyStrike (liftCooldowns u t) t).sus_strike_count = u.sus_strike_count + 1
    rw [applyStrike_strike, liftCooldowns_strike]
  unfold strikeFinal
  dsimp only
  rw [hstr]
  split <;> simp_all

theorem strikeFinal_flagged_of_flagged (u : User) (t : ℚ)
    (hfl : u.is_flagged = true) (hcool : ¬ |t - u.flagged_time| > 1/2) :
    (strikeFinal u t).is_flagged = u.is_flagged ∧
      (strikeFinal u t).flagged_time = u.flagged_time := by
  have hl : (liftCooldowns u t).is_flagged = true ∧
      (liftCooldowns u t).flagged_time = u.flagged_time := by
    unfold liftCooldowns
    dsimp only
    split
    · rw [if_neg (fun hc => hcool hc.2)]
      exact ⟨hfl, rfl⟩
    · rw [if_neg (fun hc => hcool hc.2)]
      exact ⟨hfl, rfl⟩
  have ha := applyStrike_flagged_of_flagged (liftCooldowns u t) t hl.1
  have h1 : (purgeFeed (strikeUser u t) (strikeUser u t).uid).is_flagged =
      u.is_flagged := by
    show (applyStrike (liftCooldowns u t) t).is_flagged = u.is_flagged
    rw [ha.1, hl.1, hfl]
  have h2 : (purgeFeed (strikeUser u t) (strikeUser u t).uid).flagged_time =
      u.flagged_time := by
    show (applyStrike (liftCooldowns u t) t).flagged_time = u.flagged_time
    rw [ha.2, hl.2]
  unfold strikeFinal
  dsimp only
  constructor
  · split <;> exact h1
  · split <;> exact h2

/-- Processing focus index `i` leaves every other batch entry's scalar
state unchanged and only (possibly) shrinks its feed. -/
theorem suspension_get_ne {batch : List UserPack} {i j : Nat} (hne : j ≠ i)
    {p : UserPack} (hp : batch.get? j = some p) :
    ∃ u', (suspension batch i).get? j = some (u', p.2.1, p.2.2) ∧
      u'.uid = p.1.uid ∧ u'.is_flagged = p.1.is_flagged ∧
      u'.is_suspended = p.1.is_suspended ∧
      u'.is_terminated = p.1.is_terminated ∧
      u'.flagged_time = p.1.flagged_time ∧
      u'.suspended_time = p.1.suspended_time ∧
      u'.sus_strike_count = p.1.sus_strike_count ∧
      u'.bad_message_posting = p.1.bad_message_posting ∧
      ∀ m ∈ u'.newsfeed, m ∈ p.1.newsfeed := by
  obtain ⟨v, vm, vt⟩ := p
  cases hg : batch.get? i with
  | none =>
      rw [suspension_none hg]
      exact ⟨v, hp, rfl, rfl, rfl, rfl, rfl, rfl, rfl, rfl, fun m hm => hm⟩
  | some q =>
      obtain ⟨u, msgs, t⟩ := q
      cases hbad : u.bad_message_posting with
      | false =>
          rw [suspension_good hg hbad, List.get?_set_ne _ _ (Ne.symm hne), hp]
          exact ⟨v, rfl, rfl, rfl, rfl, rfl, rfl, rfl, rfl, rfl, fun m hm => hm⟩
      | true =>
          rw [suspension_bad hg hbad, List.get?_set_ne _ _ (Ne.symm hne),
            List.get?_map, List.get?_set_ne _ _ (Ne.symm hne), hp]
          refine ⟨purgeFeed v (strikeUser u t).uid, rfl, ?_⟩
          obtain ⟨h1, h2, h3, h4, h5, h6, h7, h8⟩ :=
            purgeFeed_scalars v (strikeUser u t).uid
          exact ⟨h1, h2, h3, h4, h5, h6, h7, h8,
            fun m hm => (mem_purgeFeed hm).1⟩

/-- Feeds never grow across a `suspension` call: every message in an
output feed was already in the corresponding input feed. -/
theorem suspension_feed_mem {batch : List UserPack} {i j : Nat} {p' : UserPack}
    (h : (suspension batch i).get? j = some p') :
    ∃ p, batch.get? j = some p ∧ ∀ m ∈ p'.1.newsfeed, m ∈ p.1.newsfeed := by
  have hj : j < batch.length := by
    have := (List.get?_eq_some.mp h).1
    rwa [length_suspension] at this
  by_cases hji : j = i
  · subst hji
    obtain ⟨q, hq⟩ : ∃ q, batch.get? j = some q := by
      rw [List.get?_eq_getElem?]
      exact ⟨batch[j], List.getElem?_eq_getElem hj⟩
    obtain ⟨u, msgs, t⟩ := q
    cases hbad : u.bad_message_posting with
    | true =>
        rw [suspension_bad hq hbad] at h
        rw [List.get?_eq_getElem?, List.getElem?_set_self (by simpa using hj)]
          at h
        obtain rfl : (strikeFinal u t, msgs, t) = p' := by
          injection h
        refine ⟨(u, msgs, t), hq, ?_⟩
        intro m hm
        rw [strikeFinal_newsfeed] at hm
        cases hm
    | false =>
        rw [suspension_good hq hbad] at h
        rw [List.get?_eq_getElem?, List.getElem?_set_self (by simpa using hj)]
          at h
        obtain rfl : (liftCooldowns u t, msgs, t) = p' := by
          injection h
        refine ⟨(u, msgs, t), hq, ?_⟩
        intro m hm
        rwa [liftCooldowns_newsfeed] at hm
  · obtain ⟨q, hq⟩ : ∃ q, batch.get? j = some q := by
      rw [List.get?_eq_getElem?]
      exact ⟨batch[j], List.getElem?_eq_getElem hj⟩
    obtain ⟨u', h', _, _, _, _, _, _, _, _, hfeed⟩ := suspension_get_ne hji hq
    rw [h'] at h
    obtain rfl : (u', q.2.1, q.2.2) = p' := by injection h
    exact ⟨q, hq, hfeed⟩

/-- When the focus user posted a bad message, `suspension` leaves the
focus entry suspended with an empty feed and no batch member's feed holds
a message authored by the focus user. -/
theorem suspension_establishes {batch : List UserPack} {i : Nat} {u : User}
    {msgs : List Msg} {t : ℚ} (hg : batch.get? i = some (u, msgs, t))
    (hbad : u.bad_message_posting = true) :
    (suspension batch i).get? i = some (strikeFinal u t, msgs, t) ∧
    ∀ j p', (suspension batch i).get? j = some p' →
      ∀ m ∈ p'.1.newsfeed, m.uid ≠ u.uid := by
  have hi : i < batch.length := (List.get?_eq_some.mp hg).1
  constructor
  · rw [suspension_bad hg hbad, List.get?_eq_getElem?,
      List.getElem?_set_self (by simpa using hi)]
  · intro j p' h'
    rw [suspension_bad hg hbad] at h'
    by_cases hji : j = i
    · subst hji
      rw [List.get?_eq_getElem?, List.getElem?_set_self (by simpa using hi)] at h'
      obtain rfl : (strikeFinal u t, msgs, t) = p' := by injection h'
      intro m hm
      rw [strikeFinal_newsfeed] at hm
      cases hm
    · rw [List.get?_set_ne _ _ (Ne.symm hji), List.get?_map] at h'
      cases hq : (batch.set i (strikeUser u t, msgs, t)).get? j with
      | none => rw [hq] at h'; cases h'
      | some q =>
          rw [hq] at h'
          obtain rfl : (purgeFeed q.1 (strikeUser u t).uid, q.2.1, q.2.2) = p' := by
            injection h'
          intro m hm
          have := (mem_purgeFeed hm).2
          rwa [strikeUser_uid] at this

/-- Scalar evolution of the focus entry across one `suspension` call:
the strike count never decreases, termination is never reset, and a strike
count at or above 3 always comes with termination. -/
theorem suspension_focus {batch : List UserPack} {i : Nat} {u : User}
    {msgs : List Msg} {t : ℚ} (hg : batch.get? i = some (u, msgs, t)) :
    ∃ u', (suspension batch i).get? i = some (u', msgs, t) ∧
      u.sus_strike_count ≤ u'.sus_strike_count ∧
      (u.is_terminated = true → u'.is_terminated = true) ∧
      ((3 ≤ u.sus_strike_count → u.is_terminated = true) →
        (3 ≤ u'.sus_strike_count → u'.is_terminated = true)) := by
  have hi : i < batch.length := (List.get?_eq_some.mp hg).1
  cases hbad : u.bad_message_posting with
  | false =>
      refine ⟨liftCooldowns u t, ?_, ?_, ?_, ?_⟩
      · rw [suspension_good hg hbad, List.get?_eq_getElem?,
          List.getElem?_set_self (by simpa using hi)]
      · rw [liftCooldowns_strike]
      · rw [liftCooldowns_terminated]
        exact id
      · rw [liftCooldowns_strike, liftCooldowns_terminated]
        exact id
  | true =>
      refine ⟨strikeFinal u t, ?_, ?_, ?_, ?_⟩
      · rw [suspension_bad hg hbad, List.get?_eq_getElem?,
          List.getElem?_set_self (by simpa using hi)]
      · rw [strikeFinal_strike]
        exact Nat.le_succ _
      · intro hterm
        rw [strikeFinal_terminated]
        split <;> simp [hterm]
      · intro _ hge
        rw [strikeFinal_strike] at hge
        rw [strikeFinal_terminated]
        rw [if_pos hge]

/-- Folding `suspension` over indices that avoid `i` leaves entry `i`'s
scalar state unchanged and only shrinks its feed. -/
theorem foldl_suspension_get_notmem :
    ∀ (l : List Nat) (i : Nat), i ∉ l →
      ∀ (batch : List UserPack) (u : User) (msgs : List Msg) (t : ℚ),
      batch.get? i = some (u, msgs, t) →
      ∃ u', (l.foldl suspension batch).get? i = some (u', msgs, t) ∧
        u'.uid = u.uid ∧ u'.is_flagged = u.is_flagged ∧
        u'.is_suspended = u.is_suspended ∧ u'.is_terminated = u.is_terminated ∧
        u'.flagged_time = u.flagged_time ∧
        u'.suspended_time = u.suspended_time ∧
        u'.sus_strike_count = u.sus_strike_count ∧
        u'.bad_message_posting = u.bad_message_posting ∧
        ∀ m ∈ u'.newsfeed, m ∈ u.newsfeed
  | [], _, _, batch, u, msgs, t, hg =>
      ⟨u, hg, rfl, rfl, rfl, rfl, rfl, rfl, rfl, rfl, fun m hm => hm⟩
  | j :: rest, i, hmem, batch, u, msgs, t, hg => by
      have hne : i ≠ j := fun he => hmem (he ▸ List.mem_cons_self j rest)
      have hrest : i ∉ rest := fun hr => hmem (List.mem_cons_of_mem j hr)
      obtain ⟨u1, h1, e1, e2, e3, e4, e5, e6, e7, e8, f1⟩ :=
        suspension_get_ne (p := (u, msgs, t)) hne hg
      obtain ⟨u2, h2, g1, g2, g3, g4, g5, g6, g7, g8, f2⟩ :=
        foldl_suspension_get_notmem rest i hrest (suspension batch j) u1 msgs t h1
      exact ⟨u2, h2, g1.trans e1, g2.trans e2, g3.trans e3, g4.trans e4,
        g5.trans e5, g6.trans e6, g7.trans e7, g8.trans e8,
        fun m hm => f1 m (f2 m hm)⟩

/-- Folding `suspension` over any index list preserves the property of
every feed avoiding messages authored by `X`. -/
theorem foldl_suspension_avoid (X : Nat) :
    ∀ (l : List Nat) (batch : List UserPack),
      (∀ j p', batch.get? j = some p' → ∀ m ∈ p'.1.newsfeed, m.uid ≠ X) →
      ∀ j p', (l.foldl suspension batch).get? j = some p' →
        ∀ m ∈ p'.1.newsfeed, m.uid ≠ X
  | [], _, hav, j, p', h', m, hm => hav j p' h' m hm
  | k :: rest, batch, hav, j, p', h', m, hm => by
      refine foldl_suspension_avoid X rest (suspension batch k) ?_ j p' h' m hm
      intro j2 p2 h2 m2 hm2
      obtain ⟨p0, h0, hfeed⟩ := suspension_feed_mem h2
      exact hav j2 p0 h0 m2 (hfeed m2 hm2)

/-- Decomposition of the pass's index list around the focus index. -/
theorem range_split_at {n i : Nat} (hi : i < n) :
    List.range n =
      (List.range i ++ [i]) ++
        (List.range (n - (i + 1))).map (fun x => (i + 1) + x) := by
  have hn : n = (i + 1) + (n - (i + 1)) := by omega
  calc List.range n = List.range ((i + 1) + (n - (i + 1))) := by rw [← hn]
    _ = List.range (i + 1) ++
          (List.range (n - (i + 1))).map (fun x => (i + 1) + x) :=
        List.range_add _ _
    _ = (List.range i ++ [i]) ++
          (List.range (n - (i + 1))).map (fun x => (i + 1) + x) := by
        rw [List.range_succ]

/-! ### C3 -/

/-- C3: if the batch entry at `i` carries the policy-violation signal
(`bad_message_posting`, the condition under which the moderation step
records a suspension), then after the whole moderation pass that agent's
feed is empty, the agent is suspended, and no batch member's feed contains
any message authored by that agent. -/
theorem C3_cross_purge_completeness (batch : List UserPack) (i : Nat)
    (u : User) (msgs : List Msg) (t : ℚ)
    (hg : batch.get? i = some (u, msgs, t))
    (hbad : u.bad_message_posting = true) :
    (∃ u', (run_policy_filter batch).get? i = some (u', msgs, t) ∧
      u'.newsfeed = [] ∧ u'.is_suspended = true) ∧
    ∀ j p', (run_policy_filter batch).get? j = some p' →
      ∀ m ∈ p'.1.newsfeed, m.uid ≠ u.uid := by
  have hi : i < batch.length := (List.get?_eq_some.mp hg).1
  have hsplit := range_split_at hi
  unfold run_policy_filter
  rw [hsplit, List.foldl_append, List.foldl_append]
  have hpre : i ∉ List.range i := by
    intro hmem
    exact absurd (List.mem_range.mp hmem) (lt_irrefl i)
  obtain ⟨u1, h1, e1, _, _, _, _, _, _, e8, _⟩ :=
    foldl_suspension_get_notmem (List.range i) i hpre batch u msgs t hg
  have hbad1 : u1.bad_message_posting = true := by rw [e8, hbad]
  set sA := (List.range i).foldl suspension batch with hsA
  have hfold1 : List.foldl suspension sA [i] = suspension sA i := rfl
  rw [hfold1]
  obtain ⟨hest1, hest2⟩ := suspension_establishes h1 hbad1
  have hrest : i ∉ (List.range (batch.length - (i + 1))).map
      (fun x => (i + 1) + x) := by
    intro hmem
    obtain ⟨x, _, hxe⟩ := List.mem_map.mp hmem
    omega
  constructor
  · obtain ⟨u2, h2, _, _, g3, _, _, _, _, _, f2⟩ :=
      foldl_suspension_get_notmem _ i hrest (suspension sA i)
        (strikeFinal u1 t) msgs t hest1
    refine ⟨u2, h2, ?_, ?_⟩
    · rw [List.eq_nil_iff_forall_not_mem]
      intro m hm
      have := f2 m hm
      rw [strikeFinal_newsfeed] at this
      cases this
    · rw [g3, strikeFinal_suspended]
  · have hav : ∀ j p', (suspension sA i).get? j = some p' →
        ∀ m ∈ p'.1.newsfeed, m.uid ≠ u.uid := by
      intro j p' h' m hm
      have := hest2 j p' h' m hm
      rwa [e1] at this
    exact foldl_suspension_avoid u.uid _ (suspension sA i) hav

/-- C3 witness: a two-member batch in which user 11 (already flagged,
posting a violation at time 100.2) is purged from user 12's feed. -/
theorem C3_cross_purge_completeness_witness :
    (∃ u', (run_policy_filter
        [(flaggedOffender, [], 1002/10), (bystanderUser, [], 1002/10)]).get? 0 =
          some (u', [], 1002/10) ∧
      u'.newsfeed = [] ∧ u'.is_suspended = true) ∧
    ∀ j p', (run_policy_filter
        [(flaggedOffender, [], 1002/10), (bystanderUser, [], 1002/10)]).get? j =
          some p' →
      ∀ m ∈ p'.1.newsfeed, m.uid ≠ flaggedOffender.uid :=
  C3_cross_purge_completeness _ 0 flaggedOffender [] (1002/10) rfl rfl

/-! ### C4 -/

/-- C4: an agent evaluated with `bad_message_posting` while still flagged
(the flag cooldown has not elapsed at the batch timestamp) is suspended
with `suspended_time` set to the batch timestamp, its strike count
incremented by exactly one, and `is_flagged` and `flagged_time`
unchanged. -/
theorem C4_already_flagged_violation (batch : List UserPack) (i : Nat)
    (u : User) (msgs : List Msg) (t : ℚ)
    (hg : batch.get? i = some (u, msgs, t))
    (hbad : u.bad_message_posting = true) (hfl : u.is_flagged = true)
    (hcool : ¬ |t - u.flagged_time| > 1/2) :
    (suspension batch i).get? i = some (strikeFinal u t, msgs, t) ∧
      (strikeFinal u t).is_suspended = true ∧
      (strikeFinal u t).suspended_time = t ∧
      (strikeFinal u t).sus_strike_count = u.sus_strike_count + 1 ∧
      (strikeFinal u t).is_flagged = u.is_flagged ∧
      (strikeFinal u t).flagged_time = u.flagged_time := by
  obtain ⟨hfl1, hfl2⟩ := strikeFinal_flagged_of_flagged u t hfl hcool
  exact ⟨(suspension_establishes hg hbad).1, strikeFinal_suspended u t,
    strikeFinal_suspended_time u t, strikeFinal_strike u t, hfl1, hfl2⟩

/-- C4 witness: user 11, flagged at time 100 with one strike, posts a
violation in a batch stamped 100.2. -/
theorem C4_already_flagged_violation_witness :
    (suspension [(flaggedOffender, [], 1002/10)] 0).get? 0 =
        some (strikeFinal flaggedOffender (1002/10), [], 1002/10) ∧
      (strikeFinal flaggedOffender (1002/10)).is_suspended = true ∧
      (strikeFinal flaggedOffender (1002/10)).suspended_time = 1002/10 ∧
      (strikeFinal flaggedOffender (1002/10)).sus_strike_count =
        flaggedOffender.sus_strike_count + 1 ∧
      (strikeFinal flaggedOffender (1002/10)).is_flagged =
        flaggedOffender.is_flagged ∧
      (strikeFinal flaggedOffender (1002/10)).flagged_time =
        flaggedOffender.flagged_time :=
  C4_already_flagged_violation _ 0 flaggedOffender [] (1002/10) rfl rfl rfl
    (by
      show ¬ |(1002 : ℚ)/10 - 100| > 1/2
      rw [show (1002 : ℚ)/10 - 100 = 1/5 by norm_num,
        abs_of_pos (by norm_num)]
      norm_num)

/-! ### C5 -/

/-- C5: across a moderation pass, an agent's strike count never decreases,
termination is never reset, and (provided the entry state satisfies the
invariant `strike_count ≥ 3 → is_terminated`, which holds from the initial
state onwards) a strike count reaching 3 or more always comes with
`is_terminated = true`. -/
theorem C5_moderation_monotonicity (batch : List UserPack) (i : Nat)
    (u : User) (msgs : List Msg) (t : ℚ)
    (hg : batch.get? i = some (u, msgs, t))
    (hinv : 3 ≤ u.sus_strike_count → u.is_terminated = true) :
    ∃ u', (run_policy_filter batch).get? i = some (u', msgs, t) ∧
      u.sus_strike_count ≤ u'.sus_strike_count ∧
      (u.is_terminated = true → u'.is_terminated = true) ∧
      (3 ≤ u'.sus_strike_count → u'.is_terminated = true) := by
  have hi : i < batch.length := (List.get?_eq_some.mp hg).1
  have hsplit := range_split_at hi
  unfold run_policy_filter
  rw [hsplit, List.foldl_append, List.foldl_append]
  have hpre : i ∉ List.range i := by
    intro hmem
    exact absurd (List.mem_range.mp hmem) (lt_irrefl i)
  obtain ⟨u1, h1, _, _, _, e4, _, _, e7, _, _⟩ :=
    foldl_suspension_get_notmem (List.range i) i hpre batch u msgs t hg
  set sA := (List.range i).foldl suspension batch with hsA
  have hfold1 : List.foldl suspension sA [i] = suspension sA i := rfl
  rw [hfold1]
  obtain ⟨u2, h2, m1, m2, m3⟩ := suspension_focus h1
  have hrest : i ∉ (List.range (batch.length - (i + 1))).map
      (fun x => (i + 1) + x) := by
    intro hmem
    obtain ⟨x, _, hxe⟩ := List.mem_map.mp hmem
    omega
  obtain ⟨u3, h3, g1, _, _, g4, _, _, g7, _, _⟩ :=
    foldl_suspension_get_notmem _ i hrest (suspension sA i) u2 msgs t h2
  refine ⟨u3, h3, ?_, ?_, ?_⟩
  · rw [g7]
    exact le_trans (le_of_eq e7.symm) m1
  · intro hterm
    rw [g4]
    exact m2 (by rw [e4, hterm])
  · intro hge
    rw [g7] at hge
    have hinv1 : 3 ≤ u1.sus_strike_count → u1.is_terminated = true := by
      intro h3le
      rw [e4]
      exact hinv (by rwa [e7] at h3le)
    rw [g4]
    exact m3 hinv1 hge

/-- C5 witness: the flagged offender enters with one strike and the
invariant, and leaves the pass with two strikes, untouched termination. -/
theorem C5_moderation_monotonicity_witness :
    ∃ u', (run_policy_filter [(flaggedOffender, [], 1002/10)]).get? 0 =
        some (u', [], 1002/10) ∧
      flaggedOffender.sus_strike_count ≤ u'.sus_strike_count ∧
      (flaggedOffender.is_terminated = true → u'.is_terminated = true) ∧
      (3 ≤ u'.sus_strike_count → u'.is_terminated = true) :=
  C5_moderation_monotonicity _ 0 flaggedOffender [] (1002/10) rfl (by decide)

/-! ### Helper lemmas for the ready/busy pool manager -/

namespace Reboot

theorem inflightTake_some {src : Nat} :
    ∀ {l : List (Nat × Agent × List Message)} {a : Agent} {m : List Message}
      {rest : List (Nat × Agent × List Message)},
      inflightTake src l = some ((a, m), rest) →
      src ∈ l.map (fun e => e.1) ∧
      rest.map (fun e => e.1) = (l.map (fun e => e.1)).erase src ∧
      l.length = rest.length + 1
  | [], _, _, _, h => by simp [inflightTake] at h
  | (r, b, bm) :: l', a, m, rest, h => by
      by_cases hr : r = src
      · subst hr
        rw [inflightTake, if_pos rfl] at h
        obtain ⟨rfl, rfl, rfl⟩ : b = a ∧ bm = m ∧ l' = rest := by
          injection h with h'
          injection h' with h1 h2
          injection h1 with h3 h4
          exact ⟨h3, h4, h2⟩
        refine ⟨by simp, ?_, by simp⟩
        rw [List.map_cons, List.erase_cons_head]
      · rw [inflightTake, if_neg hr] at h
        cases htake : inflightTake src l' with
        | none => rw [htake] at h; cases h
        | some q =>
            obtain ⟨⟨a', m'⟩, rest'⟩ := q
            rw [htake] at h
            obtain ⟨rfl, rfl, rfl⟩ :
                a' = a ∧ m' = m ∧ (r, b, bm) :: rest' = rest := by
              injection h with h'
              injection h' with h1 h2
              injection h1 with h3 h4
              exact ⟨h3, h4, h2⟩
            obtain ⟨hmem, hmap, hlen⟩ := inflightTake_some htake
            refine ⟨by simp [hmem], ?_, by simp [hlen]⟩
            rw [List.map_cons, List.map_cons,
              List.erase_cons_tail (by simpa using hr), hmap]

/-- The dispatch phase preserves the pool-manager invariant. -/
theorem pmInv_dispatchPhase {pool : List Nat} {n : Nat} (o : StepOracle)
    {s : PMState} (h : pmInv pool n s) : pmInv pool n (dispatchPhase o s) := by
  obtain ⟨hperm, hmap, hcount⟩ := h
  unfold dispatchPhase
  split
  · exact ⟨hperm, hmap, hcount⟩
  · exact ⟨hperm, hmap, hcount⟩
  · next a0 rest handler_rank hag hlast =>
      have hne : s.ready ≠ [] := by
        intro hnil
        rw [hnil] at hlast
        cases hlast
      have hready : s.ready.dropLast ++ [handler_rank] = s.ready := by
        have hgl := List.getLast?_eq_getLast s.ready hne
        rw [hlast] at hgl
        have : handler_rank = s.ready.getLast hne := by injection hgl
        rw [this]
        exact List.dropLast_append_getLast hne
      refine ⟨?_, ?_, ?_⟩
      · dsimp only
        have h1 : (s.busy ++ [handler_rank]).Perm ([handler_rank] ++ s.busy) :=
          List.perm_append_comm
        have h2 := List.Perm.append_left s.ready.dropLast h1
        have h3 : s.ready.dropLast ++ ([handler_rank] ++ s.busy) =
            s.ready ++ s.busy := by
          rw [← List.append_assoc, hready]
        rw [h3] at h2
        exact h2.trans hperm
      · dsimp only
        rw [List.map_append, hmap]
        rfl
      · dsimp only
        have hidx : o.agentIdx % (a0 :: rest).length < (a0 :: rest).length :=
          Nat.mod_lt _ (by simp)
        rw [List.length_eraseIdx, if_pos hidx, List.length_append]
        rw [hag] at hcount
        simp only [List.length_cons, List.length_nil] at hcount ⊢
        omega

/-- One completion probe preserves the pool-manager invariant. -/
theorem pmInv_completionOne {pool : List Nat} {n : Nat} (o : StepOracle)
    {s : PMState} (src : Nat) (h : pmInv pool n s) :
    pmInv pool n (completionOne o s src) := by
  obtain ⟨hperm, hmap, hcount⟩ := h
  unfold completionOne
  split
  · cases htake : inflightTake src s.inflight with
    | none => exact ⟨hperm, hmap, hcount⟩
    | some q =>
        obtain ⟨⟨a, m⟩, rest⟩ := q
        obtain ⟨hmem, hmaprest, hlen⟩ := inflightTake_some htake
        have hsrc : src ∈ s.busy := by rw [← hmap]; exact hmem
        refine ⟨?_, ?_, ?_⟩
        · dsimp only
          have h1 : s.busy.Perm (src :: s.busy.erase src) :=
            List.perm_cons_erase hsrc
          have h2 := List.Perm.append_left s.ready h1
          have h3 : (s.ready ++ [src]) ++ s.busy.erase src =
              s.ready ++ (src :: s.busy.erase src) := by
            rw [List.append_assoc]
            rfl
          rw [h3]
          exact h2.symm.trans hperm
        · dsimp only
          rw [hmaprest, hmap]
        · dsimp only
          simp only [List.length_append, List.length_cons, List.length_nil]
          omega
  · exact ⟨hperm, hmap, hcount⟩

/-- The completion sweep preserves the pool-manager invariant. -/
theorem pmInv_completionSweepAux {pool : List Nat} {n : Nat} (o : StepOracle) :
    ∀ (l : List Nat) (s : PMState), pmInv pool n s →
      pmInv pool n (l.foldl (completionOne o) s)
  | [], _, h => h
  | src :: rest, s, h =>
      pmInv_completionSweepAux o rest (completionOne o s src)
        (pmInv_completionOne o src h)

/-- One loop iteration preserves the pool-manager invariant. -/
theorem pmInv_pmStep {pool : List Nat} {n : Nat} (o : StepOracle)
    {s : PMState} (h : pmInv pool n s) : pmInv pool n (pmStep o s) :=
  pmInv_completionSweepAux o _ _ (pmInv_dispatchPhase o h)

/-- Any number of loop iterations preserves the pool-manager invariant. -/
theorem pmInv_pmRun {pool : List Nat} {n : Nat} :
    ∀ (os : List StepOracle) (s : PMState), pmInv pool n s →
      pmInv pool n (pmRun os s)
  | [], _, h => h
  | o :: rest, s, h => pmInv_pmRun rest (pmStep o s) (pmInv_pmStep o h)

/-- The initial state satisfies the pool-manager invariant. -/
theorem pmInv_initState (size : Nat) (agents : List Agent) :
    pmInv ((List.range size).drop 1) agents.length (initState size agents) := by
  refine ⟨?_, rfl, rfl⟩
  simp [initState]

end Reboot

/-! ### C10 -/

/-- C10: every state reachable by the ready/busy pool-manager loop from
its initial state satisfies: ready and busy handlers partition the fixed
worker pool (they are disjoint and together a permutation of it), each
busy handler has exactly one in-flight work package, and the agents held
locally plus those in flight add up to the initial population size. -/
theorem C10_ready_busy_loop_invariants (size : Nat)
    (agents : List Reboot.Agent) (os : List Reboot.StepOracle) :
    ((Reboot.pmRun os (Reboot.initState size agents)).ready ++
        (Reboot.pmRun os (Reboot.initState size agents)).busy).Perm
      ((List.range size).drop 1) ∧
    (Reboot.pmRun os (Reboot.initState size agents)).ready.Disjoint
      (Reboot.pmRun os (Reboot.initState size agents)).busy ∧
    (∀ h ∈ (Reboot.pmRun os (Reboot.initState size agents)).busy,
      ((Reboot.pmRun os (Reboot.initState size agents)).inflight.filter
        (fun e => e.1 == h)).length = 1) ∧
    (Reboot.pmRun os (Reboot.initState size agents)).agents.length +
        (Reboot.pmRun os (Reboot.initState size agents)).inflight.length =
      agents.length := by
  obtain ⟨hperm, hmap, hcount⟩ :=
    Reboot.pmInv_pmRun os (Reboot.initState size agents)
      (Reboot.pmInv_initState size agents)
  have hpoolnd : ((List.range size).drop 1).Nodup :=
    (List.drop_sublist 1 (List.range size)).nodup (List.nodup_range size)
  have hnd : ((Reboot.pmRun os (Reboot.initState size agents)).ready ++
      (Reboot.pmRun os (Reboot.initState size agents)).busy).Nodup :=
    hperm.nodup_iff.mpr hpoolnd
  obtain ⟨_, hbusynd, hdisj⟩ := List.nodup_append.mp hnd
  refine ⟨hperm, hdisj, ?_, hcount⟩
  intro h hmem
  rw [← List.countP_eq_length_filter]
  have hstep : List.countP (fun e => e.1 == h)
      (Reboot.pmRun os (Reboot.initState size agents)).inflight =
      List.countP (fun b => b == h)
        ((Reboot.pmRun os (Reboot.initState size agents)).inflight.map
          (fun e => e.1)) := by
    rw [List.countP_map]
    rfl
  rw [hstep, hmap]
  exact List.count_eq_one_of_mem hbusynd hmem

end Carisma
